import Mathlib

/-!
Verification of the chandralc lightcurve core: the statistics derivation of
`ChandraLightcurve.__init__` (src/chandralc/ChandraLightcurve.py) and the
analysis functions `psd` and `bin_lc` (src/chandralc/analysis.py).

Python floats are embedded as exact rationals; the Python `round` builtin is
modelled exactly (round half to even on the exact value); Python exceptions
become `Except` errors.  File parsing (`convert`), plotting (`plot`) and the
scipy periodogram are external collaborators: the periodogram output is taken
as an input of the embedded `psd`.
-/

unseal Rat.mul Rat.add Rat.sub Rat.inv Rat.ofScientific

deriving instance DecidableEq for Except

namespace Chandralc

/-- One row of the loader's DataFrame: the EXPOSURE and COUNTS columns of one
telescope time bin, in acquisition order. -/
structure RawRecord where
  exposure : ℚ
  counts : ℚ
  deriving DecidableEq, Repr

/-- Integer part of Python `round(x)` on an exact rational: round half to
even.  `x.num.fdiv x.den` is the floor of `x`; `r` is the nonnegative
remainder, and `2 * r` against the denominator compares the fractional part
against one half without leaving integer arithmetic. -/
def pyRoundInt (x : ℚ) : ℤ :=
  let f := x.num.fdiv (x.den : ℤ)
  let r := x.num - f * (x.den : ℤ)
  if 2 * r < (x.den : ℤ) then f
  else if (x.den : ℤ) < 2 * r then f + 1
  else if f % 2 = 0 then f else f + 1

/-- Python `round(x, n)` on an exact rational: round `x * 10 ^ n` half to
even, then scale back. -/
def pyRound (x : ℚ) (n : ℕ) : ℚ := (pyRoundInt (x * 10 ^ n) : ℚ) / 10 ^ n

/-- The instrument bin width hard coded in `ChandraLightcurve.__init__`:
`chandra_bin = 3.241039999999654` seconds. -/
def chandra_bin : ℚ := 3241039999999654 / 10 ^ 15

/-- One iteration of the counts loop in `ChandraLightcurve.__init__`: a row
with positive EXPOSURE adds its COUNTS to the running total, a row with zero
EXPOSURE adds zero, and any other row leaves the total unchanged (neither
branch of the if/elif fires). -/
def countStep (count : ℚ) (r : RawRecord) : ℚ :=
  if 0 < r.exposure then count + r.counts
  else if r.exposure = 0 then count + 0
  else count

/-- The counts loop of `ChandraLightcurve.__init__`: after each row the
running total is appended to `self.cumulative_count_arr`. -/
def cumAux : ℚ → List RawRecord → List ℚ
  | _, [] => []
  | c, r :: rs => countStep c r :: cumAux (countStep c r) rs

/-- `self.cumulative_count_arr`: the counts loop started from `count = 0`. -/
def cumulative_count_arr (records : List RawRecord) : List ℚ :=
  cumAux 0 records

/-- `self.time_array = [chandra_bin / 1000 * i for i in range(1, n + 1)]`
with the bin width as a parameter; Python's `i` ranges over `1 .. n`, so the
entry at index `i` is `bin_duration / 1000 * (i + 1)`. -/
def time_array (bin_duration : ℚ) (n : ℕ) : List ℚ :=
  (List.range n).map fun i : ℕ => bin_duration / 1000 * ((i : ℚ) + 1)

/-- `self.count`: the final value of the counts loop accumulator. -/
def total_count (records : List RawRecord) : ℚ :=
  records.foldl countStep 0

/-- `self.time = round(self.time_array[-1], 3)`. -/
def total_time (bin_duration : ℚ) (records : List RawRecord) : ℚ :=
  pyRound ((time_array bin_duration records.length).getLastD 0) 3

/-- The derived numeric attributes frozen on a `ChandraLightcurve` object
(metadata strings and the DataFrame itself are external and omitted). -/
structure Lightcurve where
  cumulative_count_arr : List ℚ
  time_array : List ℚ
  time : ℚ
  count : ℚ
  rate_ks : ℚ
  rate_s : ℚ
  raw_phot : List ℚ
  deriving DecidableEq, Repr

/-- The two failure points of `ChandraLightcurve.__init__`: `emptyInput`
models the IndexError of `self.time_array[-1]` on an empty record list, and
`degenerateObservation` the ZeroDivisionError of `self.count / self.time`
when the rounded total time is zero. -/
inductive DeriveError
  | emptyInput
  | degenerateObservation
  deriving DecidableEq, Repr

/-- The fields of the successfully constructed object:
`rate_ks = round(count / time, 3)`, `rate_s = round(count / (time * 1000), 5)`,
and `raw_phot[i] = COUNTS[i] if EXPOSURE[i] > 0 else 0`. -/
def mkLightcurve (bin_duration : ℚ) (records : List RawRecord) : Lightcurve where
  cumulative_count_arr := cumulative_count_arr records
  time_array := time_array bin_duration records.length
  time := total_time bin_duration records
  count := total_count records
  rate_ks := pyRound (total_count records / total_time bin_duration records) 3
  rate_s := pyRound (total_count records / (total_time bin_duration records * 1000)) 5
  raw_phot := records.map fun r => if 0 < r.exposure then r.counts else 0

/-- The derivation pipeline of `ChandraLightcurve.__init__` on the loader's
records, with the two failure points reified in evaluation order: the
empty-input IndexError fires at `time_array[-1]`, the zero-time
ZeroDivisionError at `count / time`. -/
def derive (bin_duration : ℚ) (records : List RawRecord) :
    Except DeriveError Lightcurve :=
  if records.isEmpty then .error .emptyInput
  else if total_time bin_duration records = 0 then .error .degenerateObservation
  else .ok (mkLightcurve bin_duration records)

/-- The one exception `analysis.bin_lc` can raise: `len(lightcurve)//binsize`
divides by zero when `binsize == 0`. -/
inductive PyError
  | zeroDivisionError
  deriving DecidableEq, Repr

/-- The inner loop of `analysis.bin_lc`: `temp2` accumulates
`lightcurve[j * binsize + k]` over `k in range(binsize)`. -/
def binTotal (lightcurve : List ℚ) (binsize j : ℕ) : ℚ :=
  (List.range binsize).foldl (fun t k => t + lightcurve.getD (j * binsize + k) 0) 0

/-- `analysis.bin_lc(lightcurve, binsize)`: one bin sum per
`j in range(0, len(lightcurve) // binsize)`.  `binsize` is a Python int, so
`//` is flooring division, and a nonpositive bin count makes the outer range
empty. -/
def bin_lc (lightcurve : List ℚ) (binsize : ℤ) : Except PyError (List ℚ) :=
  if binsize = 0 then .error .zeroDivisionError
  else .ok ((List.range ((Int.fdiv (lightcurve.length : ℤ) binsize).toNat)).map
    fun j => binTotal lightcurve binsize.toNat j)

/-- Python `max` over a list of rationals (0 for the empty list, on which
Python would raise instead; the theorems assume nonempty input). -/
def pyMaxD : List ℚ → ℚ
  | [] => 0
  | x :: xs => xs.foldl max x

/-- The pure part of `analysis.psd`: the periodogram `(frequency, power)` of
the raw photon sequence is computed by the external scipy collaborator and
taken here as input; the plotting calls are external side effects; the
returned scalar is `(1 / frequency[list(power).index(max(power))]) * 3.241`,
with the literal `3.241` embedded exactly as `3241 / 1000`. -/
def psd (frequency power : List ℚ) : ℚ :=
  (1 / frequency.getD (power.indexOf (pyMaxD power)) 0) * (3241 / 1000)

/-! Helper lemmas about the counts loop. -/

theorem countStep_eq (c : ℚ) (r : RawRecord) :
    countStep c r = c + (if 0 < r.exposure then r.counts else 0) := by
  unfold countStep
  split_ifs <;> simp

theorem cumAux_length (c : ℚ) (rs : List RawRecord) :
    (cumAux c rs).length = rs.length := by
  induction rs generalizing c with
  | nil => rfl
  | cons r rs ih => simpa [cumAux] using ih (countStep c r)

theorem cumAux_getLastD (c : ℚ) (rs : List RawRecord) (h : rs ≠ []) (d : ℚ) :
    (cumAux c rs).getLastD d = rs.foldl countStep c := by
  induction rs generalizing c d with
  | nil => exact absurd rfl h
  | cons r rs ih =>
    rcases rs with _ | ⟨r2, rs2⟩
    · rfl
    · rw [cumAux, List.getLastD_cons, ih (countStep c r) (by simp) _]
      rfl

theorem cumAux_append (c : ℚ) (rs ts : List RawRecord) :
    cumAux c (rs ++ ts) = cumAux c rs ++ cumAux (rs.foldl countStep c) ts := by
  induction rs generalizing c with
  | nil => rfl
  | cons r rs ih => simp [cumAux, ih (countStep c r)]

theorem foldl_countStep (c : ℚ) (rs : List RawRecord) :
    rs.foldl countStep c
      = c + ((rs.filter fun r => decide (0 < r.exposure)).map fun r => r.counts).sum := by
  induction rs generalizing c with
  | nil => simp
  | cons r rs ih =>
    rw [List.foldl_cons, ih (countStep c r), countStep_eq]
    by_cases h : 0 < r.exposure
    · simp [List.filter_cons, h]
      ring
    · simp [List.filter_cons, h]

theorem derive_ok_eq {bin_duration : ℚ} {records : List RawRecord} {lc : Lightcurve}
    (hok : derive bin_duration records = .ok lc) :
    lc = mkLightcurve bin_duration records := by
  unfold derive at hok
  split_ifs at hok
  exact (Except.ok.inj hok).symm

theorem derive_ok_ne_nil {bin_duration : ℚ} {records : List RawRecord} {lc : Lightcurve}
    (hok : derive bin_duration records = .ok lc) : records ≠ [] := by
  intro hnil
  subst hnil
  simp [derive] at hok

/-- C1: for every non-empty record sequence, the final element of the
cumulative-counts sequence built by the derivation equals the sum of the
COUNTS of exactly the records with positive EXPOSURE; and a record with zero
EXPOSURE appends the previous cumulative total, so the sequence still gains
one element for it. -/
theorem derive_cumulative_final_sum (records : List RawRecord) (h : records ≠ []) :
    (cumulative_count_arr records).getLastD 0
      = ((records.filter fun r => decide (0 < r.exposure)).map fun r => r.counts).sum
    ∧ (∀ bin_duration lc, derive bin_duration records = .ok lc →
        lc.cumulative_count_arr = cumulative_count_arr records)
    ∧ ∀ r : RawRecord, r.exposure = 0 →
        cumulative_count_arr (records ++ [r])
          = cumulative_count_arr records ++ [(cumulative_count_arr records).getLastD 0] := by
  refine ⟨?_, ?_, ?_⟩
  · rw [cumulative_count_arr, cumAux_getLastD 0 records h, foldl_countStep]
    simp
  · intro bin_duration lc hok
    rw [derive_ok_eq hok]
    rfl
  · intro r hr
    rw [cumulative_count_arr, cumulative_count_arr, cumAux_append,
      cumAux_getLastD 0 records h]
    have hstep : countStep (records.foldl countStep 0) r = records.foldl countStep 0 := by
      rw [countStep_eq, hr]
      simp
    simp [cumAux, hstep]

/-- Witness for C1 at the spec's worked example
`[(exposure 1, counts 5), (exposure 1, counts 3), (exposure 0, counts 10)]`. -/
theorem derive_cumulative_final_sum_witness :
    (cumulative_count_arr [⟨1, 5⟩, ⟨1, 3⟩, ⟨0, 10⟩]).getLastD 0
      = ((([⟨1, 5⟩, ⟨1, 3⟩, ⟨0, 10⟩] : List RawRecord).filter
          fun r => decide (0 < r.exposure)).map fun r => r.counts).sum :=
  (derive_cumulative_final_sum [⟨1, 5⟩, ⟨1, 3⟩, ⟨0, 10⟩] (by simp)).1

theorem time_array_length (bin_duration : ℚ) (n : ℕ) :
    (time_array bin_duration n).length = n := by
  simp [time_array]

theorem time_array_pairwise {bin_duration : ℚ} (hbd : 0 < bin_duration) (n : ℕ) :
    (time_array bin_duration n).Pairwise (· < ·) := by
  unfold time_array
  rw [List.pairwise_map]
  refine (List.pairwise_lt_range n).imp fun {a b} hab => ?_
  have h1 : (0 : ℚ) < bin_duration / 1000 := by positivity
  have h2 : ((a : ℚ) + 1) < (b : ℚ) + 1 := by exact_mod_cast Nat.succ_lt_succ hab
  exact mul_lt_mul_of_pos_left h2 h1

theorem cumAux_chain (c : ℚ) (rs : List RawRecord) (h : ∀ r ∈ rs, 0 ≤ r.counts) :
    List.Chain (· ≤ ·) c (cumAux c rs) := by
  induction rs generalizing c with
  | nil => exact List.Chain.nil
  | cons r rs ih =>
    rw [cumAux]
    refine List.Chain.cons ?_ (ih (countStep c r) fun x hx => h x (List.mem_cons_of_mem _ hx))
    rw [countStep_eq]
    have hc := h r (List.mem_cons_self r rs)
    split_ifs
    · linarith
    · simp

theorem cumAux_pairwise (c : ℚ) (rs : List RawRecord) (h : ∀ r ∈ rs, 0 ≤ r.counts) :
    (cumAux c rs).Pairwise (· ≤ ·) :=
  (List.chain_iff_pairwise.mp (cumAux_chain c rs h)).of_cons

/-- C2: for every non-empty record sequence with positive bin width, the
derived object has `time_array`, `cumulative_count_arr` and the record list
all of one length, a strictly increasing time axis, and non-decreasing
cumulative counts (records carry nonnegative COUNTS per the data model). -/
theorem derive_invariants (bin_duration : ℚ) (records : List RawRecord) (lc : Lightcurve)
    (hbd : 0 < bin_duration)
    (hcounts : ∀ r ∈ records, 0 ≤ r.counts)
    (hok : derive bin_duration records = .ok lc) :
    lc.time_array.length = records.length
    ∧ lc.cumulative_count_arr.length = records.length
    ∧ lc.time_array.Pairwise (· < ·)
    ∧ lc.cumulative_count_arr.Pairwise (· ≤ ·) := by
  rw [derive_ok_eq hok]
  exact ⟨time_array_length _ _, cumAux_length 0 records,
    time_array_pairwise hbd _, cumAux_pairwise 0 records hcounts⟩

/-- Witness for C2 at the spec's worked example. -/
theorem derive_invariants_witness :
    (mkLightcurve 1000 [⟨1, 5⟩, ⟨1, 3⟩, ⟨0, 10⟩]).time_array.Pairwise (· < ·)
    ∧ (mkLightcurve 1000 [⟨1, 5⟩, ⟨1, 3⟩, ⟨0, 10⟩]).cumulative_count_arr.Pairwise (· ≤ ·) := by
  obtain ⟨-, -, h3, h4⟩ := derive_invariants 1000 [⟨1, 5⟩, ⟨1, 3⟩, ⟨0, 10⟩]
    (mkLightcurve 1000 [⟨1, 5⟩, ⟨1, 3⟩, ⟨0, 10⟩]) (by norm_num) (by decide) (by decide)
  exact ⟨h3, h4⟩

/-- C3 (amended): `time_axis[i] = bin_duration * (i + 1) / 1000` holds at
every index, but the frozen `time` statistic is `round(time_axis[-1], 3)`,
the last time-axis entry rounded to three decimals, not that entry itself. -/
theorem derive_time_axis_formula (bin_duration : ℚ) (records : List RawRecord)
    (lc : Lightcurve) (hok : derive bin_duration records = .ok lc) :
    (∀ i < lc.time_array.length,
        lc.time_array.getD i 0 = bin_duration * ((i : ℚ) + 1) / 1000)
    ∧ lc.time = pyRound (lc.time_array.getLastD 0) 3 := by
  rw [derive_ok_eq hok]
  constructor
  · intro i hi
    have hi2 : i < records.length := by
      simpa [mkLightcurve, time_array] using hi
    show (time_array bin_duration records.length).getD i 0 = _
    rw [time_array, List.getD_eq_getElem?_getD, List.getElem?_map, List.getElem?_range hi2]
    show bin_duration / 1000 * ((i : ℚ) + 1) = _
    ring
  · rfl

/-- Counterexample to C3 as stated: on the single-record observation with the
instrument bin width, the frozen total time is `0.003` (the rounded value)
while the last time-axis entry is `0.003241039999999654`. -/
theorem derive_total_time_ne_time_axis_last :
    (derive chandra_bin [⟨1, 5⟩]).toOption.map (fun lc => lc.time)
      ≠ (derive chandra_bin [⟨1, 5⟩]).toOption.map (fun lc => lc.time_array.getLastD 0) := by
  decide

/-- Witness for C3's amended theorem on a concrete observation. -/
theorem derive_time_axis_formula_witness :
    (mkLightcurve chandra_bin [⟨1, 5⟩]).time
      = pyRound ((mkLightcurve chandra_bin [⟨1, 5⟩]).time_array.getLastD 0) 3 :=
  (derive_time_axis_formula chandra_bin [⟨1, 5⟩] (mkLightcurve chandra_bin [⟨1, 5⟩])
    (by decide)).2

/-- C4 (amended): the frozen rates are the rounded ratios
`rate_ks = round(count / time, 3)` and `rate_s = round(count / (time * 1000), 5)`,
not the exact ratios. -/
theorem derive_rates_rounded (bin_duration : ℚ) (records : List RawRecord)
    (lc : Lightcurve) (hok : derive bin_duration records = .ok lc) :
    lc.rate_ks = pyRound (lc.count / lc.time) 3
    ∧ lc.rate_s = pyRound (lc.count / (lc.time * 1000)) 5 := by
  rw [derive_ok_eq hok]
  exact ⟨rfl, rfl⟩

/-- Counterexample to C4 as stated: with one record of one count,
`rate_ks = 333.333` differs from the exact ratio `count / time = 1000 / 3`,
and `rate_s = 0.33333` differs from `rate_ks / 1000 = 0.333333`. -/
theorem derive_rate_not_exact_ratio :
    (derive chandra_bin [⟨1, 1⟩]).toOption.map (fun lc => lc.rate_ks)
      ≠ (derive chandra_bin [⟨1, 1⟩]).toOption.map (fun lc => lc.count / lc.time)
    ∧ (derive chandra_bin [⟨1, 1⟩]).toOption.map (fun lc => lc.rate_s)
      ≠ (derive chandra_bin [⟨1, 1⟩]).toOption.map (fun lc => lc.rate_ks / 1000) :=
  ⟨by decide, by decide⟩

/-- Witness for C4's amended theorem on a concrete observation. -/
theorem derive_rates_rounded_witness :
    (mkLightcurve chandra_bin [⟨1, 1⟩]).rate_ks
      = pyRound ((mkLightcurve chandra_bin [⟨1, 1⟩]).count
          / (mkLightcurve chandra_bin [⟨1, 1⟩]).time) 3 :=
  (derive_rates_rounded chandra_bin [⟨1, 1⟩] (mkLightcurve chandra_bin [⟨1, 1⟩])
    (by decide)).1

/-- C5: the derivation fails with `emptyInput` exactly on the empty record
list, fails with `degenerateObservation` exactly when the derived total time
is zero, and in every other case returns the constructed object. -/
theorem derive_error_cases (bin_duration : ℚ) (records : List RawRecord) :
    (derive bin_duration records = .error .emptyInput ↔ records = [])
    ∧ (derive bin_duration records = .error .degenerateObservation
        ↔ records ≠ [] ∧ total_time bin_duration records = 0)
    ∧ (records ≠ [] → total_time bin_duration records ≠ 0 →
        derive bin_duration records = .ok (mkLightcurve bin_duration records)) := by
  unfold derive
  rcases records with _ | ⟨r, rs⟩
  · simp
  · by_cases h2 : total_time bin_duration (r :: rs) = 0
    · simp [h2]
    · simp [h2]

/-! Helper lemmas about the binning loop. -/

theorem foldl_add_eq_sum (f : ℕ → ℚ) (l : List ℕ) (c : ℚ) :
    l.foldl (fun t k => t + f k) c = c + (l.map f).sum := by
  induction l generalizing c with
  | nil => simp
  | cons x xs ih =>
    rw [List.foldl_cons, ih (c + f x), List.map_cons, List.sum_cons]
    ring

theorem sum_take_succ (l : List ℚ) (n : ℕ) :
    (l.take (n + 1)).sum = (l.take n).sum + l.getD n 0 := by
  rw [List.take_succ, List.sum_append]
  congr 1
  rcases h : l[n]? with _ | x <;> simp [List.getD_eq_getElem?_getD, h]

theorem range_map_getD_sum (l : List ℚ) (s b : ℕ) :
    ((List.range b).map fun k : ℕ => l.getD (s + k) 0).sum = ((l.drop s).take b).sum := by
  induction b with
  | zero => simp
  | succ b ih =>
    rw [List.range_succ, List.map_append, List.sum_append, ih, sum_take_succ]
    simp [List.getD_eq_getElem?_getD, List.getElem?_drop]

theorem binTotal_eq_sum (l : List ℚ) (b j : ℕ) :
    binTotal l b j = ((l.drop (j * b)).take b).sum := by
  unfold binTotal
  rw [foldl_add_eq_sum (fun k => l.getD (j * b + k) 0) (List.range b) 0, zero_add]
  exact range_map_getD_sum l (j * b) b

theorem fdiv_natCast_toNat (m n : ℕ) :
    (Int.fdiv (m : ℤ) (n : ℤ)).toNat = m / n := by
  rw [← Int.ofNat_fdiv]
  exact Int.toNat_ofNat _

theorem bin_lc_natCast (seq : List ℚ) (b : ℕ) (hb : 1 ≤ b) :
    bin_lc seq (b : ℤ)
      = .ok ((List.range (seq.length / b)).map fun j => binTotal seq b j) := by
  unfold bin_lc
  rw [if_neg (by exact_mod_cast Nat.pos_iff_ne_zero.mp hb)]
  simp [fdiv_natCast_toNat]

/-- C6: for `binsize >= 1` the binning returns `len(seq) // binsize` bin
sums, the bin at position `j` summing `seq[j*binsize : j*binsize+binsize]`,
the trailing remainder discarded; for `binsize > len(seq)` the result is
empty rather than an error. -/
theorem bin_lc_spec (seq : List ℚ) (binsize : ℕ) (hb : 1 ≤ binsize) :
    ∃ out, bin_lc seq (binsize : ℤ) = .ok out
      ∧ out.length = seq.length / binsize
      ∧ (∀ j < seq.length / binsize,
          out.getD j 0 = ((seq.drop (j * binsize)).take binsize).sum)
      ∧ (seq.length < binsize → out = []) := by
  refine ⟨_, bin_lc_natCast seq binsize hb, by simp, ?_, ?_⟩
  · intro j hj
    simp [List.getD_eq_getElem?_getD, List.getElem?_range hj, binTotal_eq_sum]
  · intro hlt
    simp [Nat.div_eq_of_lt hlt]

/-- Witness for C6 at the spec's example `bin_sum([1,2,3,4,5], 2) == [3, 7]`. -/
theorem bin_lc_spec_witness :
    ∃ out, bin_lc [1, 2, 3, 4, 5] ((2 : ℕ) : ℤ) = .ok out
      ∧ out.length = ([1, 2, 3, 4, 5] : List ℚ).length / 2
      ∧ (∀ j < ([1, 2, 3, 4, 5] : List ℚ).length / 2,
          out.getD j 0 = ((([1, 2, 3, 4, 5] : List ℚ).drop (j * 2)).take 2).sum)
      ∧ (([1, 2, 3, 4, 5] : List ℚ).length < 2 → out = []) :=
  bin_lc_spec [1, 2, 3, 4, 5] 2 (by decide)

theorem sum_bins_eq_sum_take (l : List ℚ) (b : ℕ) (m : ℕ) :
    ((List.range m).map fun j : ℕ => ((l.drop (j * b)).take b).sum).sum
      = (l.take (m * b)).sum := by
  induction m with
  | zero => simp
  | succ m ih =>
    rw [List.range_succ, List.map_append, List.sum_append, ih]
    simp only [List.map_cons, List.map_nil, List.sum_cons, List.sum_nil, add_zero]
    rw [Nat.succ_mul, List.take_add, List.sum_append]

/-- C10: the bin sums add up to the sum of the first
`(len(seq) // binsize) * binsize` elements: no count from a whole bin is
lost, only the trailing remainder. -/
theorem bin_lc_sum_take (seq : List ℚ) (binsize : ℕ) (hb : 1 ≤ binsize) :
    ∃ out, bin_lc seq (binsize : ℤ) = .ok out
      ∧ out.sum = (seq.take (seq.length / binsize * binsize)).sum := by
  refine ⟨_, bin_lc_natCast seq binsize hb, ?_⟩
  rw [← sum_bins_eq_sum_take seq binsize (seq.length / binsize)]
  simp [binTotal_eq_sum]

/-- Witness for C10 on the spec's example sequence. -/
theorem bin_lc_sum_take_witness :
    ∃ out, bin_lc [1, 2, 3, 4, 5] ((2 : ℕ) : ℤ) = .ok out
      ∧ out.sum
        = (([1, 2, 3, 4, 5] : List ℚ).take
            (([1, 2, 3, 4, 5] : List ℚ).length / 2 * 2)).sum :=
  bin_lc_sum_take [1, 2, 3, 4, 5] 2 (by decide)

/-- C9 (amended): `bin_lc` validates nothing: `binsize == 0` raises
ZeroDivisionError at `len(lightcurve) // binsize` (not a dedicated
InvalidBinSizeError, which exists nowhere in the code), and a negative
`binsize` raises nothing at all, returning the empty list. -/
theorem bin_lc_binsize_lt_one (seq : List ℚ) (binsize : ℤ) (hb : binsize < 1) :
    (binsize = 0 → bin_lc seq binsize = .error .zeroDivisionError)
    ∧ (binsize < 0 → bin_lc seq binsize = .ok []) := by
  constructor
  · intro h0
    subst h0
    rfl
  · intro hneg
    unfold bin_lc
    rw [if_neg (by omega)]
    have h1 : Int.fdiv (seq.length : ℤ) binsize ≤ 0 :=
      Int.fdiv_nonpos (Int.natCast_nonneg _) (by omega)
    simp [Int.toNat_of_nonpos h1]

/-- Counterexample to C9 as stated: `binsize = -1 < 1` returns successfully
(the empty list) instead of raising any error. -/
theorem bin_lc_neg_binsize_ok : bin_lc [1, 2, 3] (-1) = .ok [] := by decide

/-- Witness for C9's amended theorem at `binsize = 0` and `binsize = -1`. -/
theorem bin_lc_binsize_lt_one_witness :
    bin_lc [1, 2, 3] 0 = .error .zeroDivisionError ∧ bin_lc [1, 2, 3] (-1) = .ok [] :=
  ⟨(bin_lc_binsize_lt_one [1, 2, 3] 0 (by decide)).1 rfl,
    (bin_lc_binsize_lt_one [1, 2, 3] (-1) (by decide)).2 (by decide)⟩

/-! Helper lemmas about Python max and list index. -/

theorem le_foldl_max (x : ℚ) (xs : List ℚ) : x ≤ xs.foldl max x := by
  induction xs generalizing x with
  | nil => exact le_refl x
  | cons y ys ih => exact le_trans (le_max_left x y) (ih (max x y))

theorem foldl_max_mem (x : ℚ) (xs : List ℚ) :
    xs.foldl max x = x ∨ xs.foldl max x ∈ xs := by
  induction xs generalizing x with
  | nil => exact Or.inl rfl
  | cons y ys ih =>
    rcases ih (max x y) with h | h
    · rcases max_choice x y with hm | hm
      · exact Or.inl (by rw [List.foldl_cons, h, hm])
      · exact Or.inr (by rw [List.foldl_cons, h, hm]; exact List.mem_cons_self y ys)
    · exact Or.inr (List.mem_cons_of_mem y h)

theorem mem_le_foldl_max (z x : ℚ) (xs : List ℚ) (hz : z ∈ xs) :
    z ≤ xs.foldl max x := by
  induction xs generalizing x with
  | nil => cases hz
  | cons y ys ih =>
    rcases List.mem_cons.mp hz with rfl | h
    · exact le_trans (le_max_right x z) (le_foldl_max _ ys)
    · exact ih (max x y) h

theorem pyMaxD_mem {l : List ℚ} (hne : l ≠ []) : pyMaxD l ∈ l := by
  rcases l with _ | ⟨x, xs⟩
  · exact absurd rfl hne
  · show xs.foldl max x ∈ x :: xs
    rcases foldl_max_mem x xs with h | h
    · rw [h]
      exact List.mem_cons_self x xs
    · exact List.mem_cons_of_mem x h

theorem le_pyMaxD {l : List ℚ} (z : ℚ) (hz : z ∈ l) : z ≤ pyMaxD l := by
  rcases l with _ | ⟨x, xs⟩
  · cases hz
  · show z ≤ xs.foldl max x
    rcases List.mem_cons.mp hz with rfl | h
    · exact le_foldl_max z xs
    · exact mem_le_foldl_max z x xs h

/-- C8: whenever the periodogram is defined (nonempty power sequence, one
frequency per power value), `psd` returns `(1 / f) * 3.241` where `f` is a
frequency of maximal periodogram power. -/
theorem psd_dominant_period (frequency power : List ℚ)
    (hne : power ≠ []) (hlen : frequency.length = power.length) :
    ∃ i < power.length, (∀ x ∈ power, x ≤ power.getD i 0)
      ∧ psd frequency power = (1 / frequency.getD i 0) * (3241 / 1000) := by
  have hlt : power.indexOf (pyMaxD power) < power.length :=
    List.indexOf_lt_length.mpr (pyMaxD_mem hne)
  refine ⟨power.indexOf (pyMaxD power), hlt, ?_, rfl⟩
  intro x hx
  have hidx : power.getD (power.indexOf (pyMaxD power)) 0 = pyMaxD power := by
    rw [List.getD_eq_getElem?_getD, List.getElem?_eq_getElem hlt, Option.getD_some]
    exact List.getElem_indexOf hlt
  rw [hidx]
  exact le_pyMaxD x hx

/-- Witness for C8 on a periodogram with maximal power 5 at frequency 2. -/
theorem psd_dominant_period_witness :
    ∃ i < ([1, 5] : List ℚ).length,
      (∀ x ∈ ([1, 5] : List ℚ), x ≤ ([1, 5] : List ℚ).getD i 0)
      ∧ psd [1, 2] [1, 5] = (1 / ([1, 2] : List ℚ).getD i 0) * (3241 / 1000) :=
  psd_dominant_period [1, 2] [1, 5] (by simp) (by simp)

end Chandralc
